import Mathlib

/-
  Verification of the chunking-summarization pipeline of
  src/summarize_transcriptions.py (class TranscriptionSummarizer).
  Python strings are modelled as List Char; the external generation
  service (call_ollama) and the stdlib json.loads are oracles passed in
  as function parameters; a Python value that can result from json.loads
  is modelled by the inductive PyVal.
-/

set_option maxRecDepth 4000

namespace Whisper

/-- Convert a string literal to the list-of-characters representation used
throughout this development (a Python str is modelled as a List Char). -/
def strL (s : String) : List Char := s.toList

/-- Characters removed by Python str.strip with no argument (ASCII whitespace). -/
def isPySpace (c : Char) : Bool :=
  c == ' ' || c == '\t' || c == '\n' || c == '\r' || c == '\x0b' || c == '\x0c'

/-- Python str.strip(): drop leading and trailing whitespace. -/
def pyStrip (s : List Char) : List Char :=
  ((s.dropWhile isPySpace).reverse.dropWhile isPySpace).reverse

/-- Python slice s[a:b] (step 1): a negative bound counts from the end of the
string, then both bounds are clamped to the interval from 0 to len(s). -/
def pySlice (s : List Char) (a b : Int) : List Char :=
  let n : Int := s.length
  let a2 : Int := if a < 0 then max (a + n) 0 else min a n
  let b2 : Int := if b < 0 then max (b + n) 0 else min b n
  (s.take b2.toNat).drop a2.toNat

/-- Whether sub occurs in s starting at index i, entirely inside s. -/
def listMatchAt (s sub : List Char) (i : Nat) : Bool :=
  (s.drop i).take sub.length == sub

/-- Helper for pyRfind: the largest index k with k at most n at which sub
occurs in s, or -1 when there is none. -/
def rfindAux (s sub : List Char) : Nat → Int
  | 0 => if listMatchAt s sub 0 then 0 else -1
  | n + 1 => if listMatchAt s sub (n + 1) then ((n + 1 : Nat) : Int) else rfindAux s sub n

/-- Python s.rfind(sub): the highest index at which sub occurs in s, else -1. -/
def pyRfind (s sub : List Char) : Int :=
  if sub.length ≤ s.length then rfindAux s sub (s.length - sub.length) else -1

/-- Sentence-boundary markers of chunk_text
(source line 53: sentence_ends = ['.', '!', '?', '\n\n']). -/
def sentMarkers : List (List Char) := [['.'], ['!'], ['?'], ['\n', '\n']]

/-- One of the four sentence-boundary markers occurs in s at index i. -/
def markerAt (s : List Char) (i : Nat) : Bool :=
  sentMarkers.any (fun m => listMatchAt s m i)

/-- Start of the trailing search region of a window:
max(start, end - 200) with end = start + chunk_size (source line 52). -/
def chunkBase (cs : Nat) (start : Int) : Int := max start (start + (cs : Int) - 200)

/-- The trailing region chunk_end = text[max(start, end-200):end]
(source line 52). -/
def chunkRegion (cs : Nat) (text : List Char) (start : Int) : List Char :=
  pySlice text (chunkBase cs start) (start + (cs : Int))

/-- One step of the last_break update (source lines 57 to 59):
if pos > last_break then last_break = pos. -/
def stepMax (lb pos : Int) : Int := if pos > lb then pos else lb

/-- The last_break computation (source lines 54 to 59): iterate over the four
markers keeping the largest rfind result, starting from -1. -/
def lastBreak (region : List Char) : Int :=
  sentMarkers.foldl (fun lb m => stepMax lb (pyRfind region m)) (-1)

/-- The end of the window cut at cursor position start (source lines 47 to 62):
end = start + chunk_size; if end < len(text) and the largest marker position
last_break in the trailing region is strictly positive, the window is cut to
max(start, end-200) + last_break + 1. -/
def chunkEnd (cs : Nat) (text : List Char) (start : Int) : Int :=
  let e : Int := start + (cs : Int)
  if e < (text.length : Int) then
    let lb := lastBreak (chunkRegion cs text start)
    if lb > 0 then chunkBase cs start + lb + 1 else e
  else e

/-- The while loop of chunk_text (source lines 46 to 65), indexed by fuel
because the Python loop need not terminate; none means the fuel ran out.
Each iteration appends text[start:end].strip() and sets start to
end - overlap. -/
def chunkLoop (cs ov : Nat) (text : List Char) : Nat → Int → Option (List (List Char))
  | 0, _ => none
  | fuel + 1, start =>
    if start < (text.length : Int) then
      (chunkLoop cs ov text fuel (chunkEnd cs text start - (ov : Int))).map
        (fun rest => pyStrip (pySlice text start (chunkEnd cs text start)) :: rest)
    else some []

/-- The same loop recording each window's (start, end) pair instead of the
stripped slice. -/
def chunkRangesLoop (cs ov : Nat) (text : List Char) : Nat → Int → Option (List (Int × Int))
  | 0, _ => none
  | fuel + 1, start =>
    if start < (text.length : Int) then
      (chunkRangesLoop cs ov text fuel (chunkEnd cs text start - (ov : Int))).map
        (fun rest => (start, chunkEnd cs text start) :: rest)
    else some []

/-- chunk_text (source lines 38 to 67): if len(text) <= chunk_size return
[text] unchanged, otherwise run the window loop from cursor 0. -/
def chunk_text (cs ov : Nat) (text : List Char) (fuel : Nat) : Option (List (List Char)) :=
  if text.length ≤ cs then some [text] else chunkLoop cs ov text fuel 0

/-- The while loop of chunk_text exits after finitely many iterations. -/
def ChunkTerminates (cs ov : Nat) (text : List Char) : Prop :=
  ∃ fuel, (chunkLoop cs ov text fuel 0).isSome = true

/-- The object state set up by TranscriptionSummarizer.__init__
(source lines 13 to 18). -/
structure TranscriptionSummarizer where
  model_name : List Char
  ollama_url : List Char
  chunk_size : Nat
  overlap : Nat

/-- TranscriptionSummarizer.__init__ (source lines 14 to 18): stores the two
string arguments and hardcodes chunk_size = 6000 and overlap = 500; it
performs no validation and has no failure path. -/
def TranscriptionSummarizer.init (model_name ollama_url : List Char) : TranscriptionSummarizer :=
  { model_name := model_name, ollama_url := ollama_url, chunk_size := 6000, overlap := 500 }

/-- Python attribute assignment s.chunk_size = cs; s.overlap = ov after
construction: it always succeeds, no check is performed anywhere in the
source. -/
def configure (s : TranscriptionSummarizer) (cs ov : Nat) : TranscriptionSummarizer :=
  { s with chunk_size := cs, overlap := ov }

/-- The configuration error the spec demands for overlap at least max_size;
no such error exists anywhere in the source. -/
inductive ConfigError where
  | overlapNotLessThanMaxSize
deriving DecidableEq

/-- Modelled from the spec, for comparison with the code: a constructor that
rejects a configuration with overlap at least max_size with a ConfigError, as
section 4.1 of the spec demands. The source has no counterpart. -/
def initSpec (cs ov : Nat) : Except ConfigError (Nat × Nat) :=
  if ov < cs then .ok (cs, ov) else .error .overlapNotLessThanMaxSize

/-- Python truthiness of an optional string: None and the empty string are
falsy, every other string is truthy. -/
def pyTruthy (s : Option (List Char)) : Bool :=
  match s with
  | some t => !t.isEmpty
  | none => false

/-- The joined partial-summaries block built by combine_summaries
(source line 120): separator join of the summaries. -/
def sepJoin (l : List (List Char)) : List Char :=
  List.intercalate (strL "\n\n---\n\n") l

/-- The summarization stage of process_file (source lines 202 to 214) together
with combine_summaries (source lines 118 to 134). sumFn models
summarize_chunk(chunk, is_partial), that is the generation call for one chunk
(None models a failed call); combFn models call_ollama on the combine prompt,
as a function of the joined partial-summaries block. With a single chunk the
whole-document call is made; otherwise every chunk is summarized in order,
only truthy results are kept (if chunk_summary, source line 210), and
combine_summaries is invoked unconditionally on the survivors. The second
component records the list combine_summaries was invoked with, none when it
was not invoked at all. -/
def reduce_stage (chunks : List (List Char))
    (sumFn : List Char → Bool → Option (List Char))
    (combFn : List Char → Option (List Char)) :
    Option (List Char) × Option (List (List Char)) :=
  if chunks.length == 1 then
    (sumFn (chunks.headD []) false, none)
  else
    (combFn (sepJoin (chunks.filterMap
        (fun c => if pyTruthy (sumFn c true) then sumFn c true else none))),
     some (chunks.filterMap
        (fun c => if pyTruthy (sumFn c true) then sumFn c true else none)))

/-- process_file marks the document failed exactly when the summary is falsy
(if not summary: return None, source lines 216 to 218). -/
def documentFailed (summary : Option (List Char)) : Bool := !pyTruthy summary

/-- Python exceptions relevant to organize_summary. -/
inductive PyExc where
  | typeError
  | valueError
deriving DecidableEq

/-- Python values that can result from json.loads. -/
inductive PyVal where
  | pynone
  | pybool (b : Bool)
  | pyint (n : Int)
  | pystr (s : List Char)
  | pylist (l : List PyVal)
  | pydict (d : List (List Char × PyVal))

/-- Whether a Python value is a dict. -/
def PyVal.isDict : PyVal → Bool
  | .pydict _ => true
  | _ => false

/-- Python dict assignment d[k] = v: update the value in place when the key is
present, otherwise append the new pair (insertion order preserved). -/
def dictSet (d : List (List Char × PyVal)) (k : List Char) (v : PyVal) :
    List (List Char × PyVal) :=
  if d.any (fun p => p.1 == k) then d.map (fun p => if p.1 == k then (k, v) else p)
  else d ++ [(k, v)]

/-- Python subscript assignment x[k] = v: succeeds on a dict and raises
TypeError on every other value resulting from json.loads. -/
def pySetItem (x : PyVal) (k : List Char) (v : PyVal) : Except PyExc PyVal :=
  match x with
  | .pydict d => .ok (.pydict (dictSet d k v))
  | _ => .error .typeError

/-- The metadata dict built by extract_metadata (source lines 136 to 149):
filename, date, title, word_count, char_count. -/
structure Metadata where
  filename : List Char
  date : List Char
  title : List Char
  word_count : Nat
  char_count : Nat

/-- The metadata record as a Python value, for attachment to the structured
record. -/
def metaToVal (m : Metadata) : PyVal :=
  .pydict [(strL "filename", .pystr m.filename), (strL "date", .pystr m.date),
           (strL "title", .pystr m.title), (strL "word_count", .pyint m.word_count),
           (strL "char_count", .pyint m.char_count)]

/-- organize_summary (source lines 151 to 183). The parameter jl models the
stdlib json.loads applied to the textual response of call_ollama (an error
value models any exception it raises, which the bare except of line 173
catches); response is the call_ollama result on the extraction prompt, None
when that call failed. On parse failure the fallback dict
{title, date, raw_summary} is used; then metadata and summary are attached by
subscript assignment, which raises TypeError outside the try when the parsed
value is not a dict. -/
def organize_summary (jl : Option (List Char) → Except PyExc PyVal)
    (response : Option (List Char)) (summary : List Char) (meta : Metadata) :
    Except PyExc PyVal :=
  match pySetItem
      (match jl response with
       | .ok v => v
       | .error _ =>
           .pydict [(strL "title", .pystr meta.title), (strL "date", .pystr meta.date),
                    (strL "raw_summary", .pystr summary)])
      (strL "metadata") (metaToVal meta) with
  | .error e => .error e
  | .ok s1 =>
    match pySetItem s1 (strL "summary") (.pystr summary) with
    | .error e => .error e
    | .ok s2 => .ok s2

/-! Helper lemmas about the rfind machinery. -/

theorem listMatchAt_bound {s sub : List Char} {k : Nat} (hsub : sub ≠ [])
    (h : listMatchAt s sub k = true) : k + sub.length ≤ s.length := by
  rw [listMatchAt, beq_iff_eq] at h
  have hl := congrArg List.length h
  simp only [List.length_take, List.length_drop] at hl
  rcases Nat.le_total sub.length (s.length - k) with hle | hle
  · have hk : k ≤ s.length := by
      by_contra hk
      push_neg at hk
      have : s.length - k = 0 := by omega
      rw [this] at hle
      have : sub.length = 0 := by omega
      exact hsub (List.length_eq_zero.mp this)
    omega
  · rw [min_eq_right hle] at hl
    have hpos : 0 < sub.length := List.length_pos.mpr hsub
    omega

theorem listMatchAt_false_of_gt {s sub : List Char} {j : Nat} (hsub : sub ≠ [])
    (hj : s.length < j + sub.length) : listMatchAt s sub j = false := by
  by_contra h
  rw [Bool.not_eq_false] at h
  have := listMatchAt_bound hsub h
  omega

theorem rfindAux_cases (s sub : List Char) (n : Nat) :
    (rfindAux s sub n = -1 ∧ ∀ j : Nat, j ≤ n → listMatchAt s sub j = false) ∨
    (∃ k : Nat, rfindAux s sub n = (k : Int) ∧ k ≤ n ∧ listMatchAt s sub k = true ∧
      ∀ j : Nat, j ≤ n → k < j → listMatchAt s sub j = false) := by
  induction n with
  | zero =>
    by_cases h : listMatchAt s sub 0 = true
    · right
      refine ⟨0, by simp [rfindAux, h], Nat.le_refl 0, h, ?_⟩
      intro j hj hk
      omega
    · left
      refine ⟨by simp [rfindAux, h], ?_⟩
      intro j hj
      have : j = 0 := Nat.le_zero.mp hj
      subst this
      exact Bool.not_eq_true _ ▸ (by simpa using h)
  | succ n ih =>
    by_cases h : listMatchAt s sub (n + 1) = true
    · right
      refine ⟨n + 1, by simp [rfindAux, h], Nat.le_refl _, h, ?_⟩
      intro j hj hk
      omega
    · have hf : listMatchAt s sub (n + 1) = false := by simpa using h
      rcases ih with ⟨h1, h2⟩ | ⟨k, h1, h2, h3, h4⟩
      · left
        refine ⟨by simp [rfindAux, h, h1], ?_⟩
        intro j hj
        rcases Nat.lt_or_ge j (n + 1) with hlt | hge
        · exact h2 j (by omega)
        · have : j = n + 1 := by omega
          subst this
          exact hf
      · right
        refine ⟨k, by simp [rfindAux, h, h1], by omega, h3, ?_⟩
        intro j hj hk
        rcases Nat.lt_or_ge j (n + 1) with hlt | hge
        · exact h4 j (by omega) hk
        · have : j = n + 1 := by omega
          subst this
          exact hf

theorem pyRfind_cases (s sub : List Char) (hsub : sub ≠ []) :
    (pyRfind s sub = -1 ∧ ∀ j : Nat, listMatchAt s sub j = false) ∨
    (∃ k : Nat, pyRfind s sub = (k : Int) ∧ listMatchAt s sub k = true ∧
      ∀ j : Nat, k < j → listMatchAt s sub j = false) := by
  rw [pyRfind]
  by_cases hl : sub.length ≤ s.length
  · rw [if_pos hl]
    rcases rfindAux_cases s sub (s.length - sub.length) with ⟨h1, h2⟩ | ⟨k, h1, h2, h3, h4⟩
    · left
      refine ⟨h1, fun j => ?_⟩
      rcases le_or_lt j (s.length - sub.length) with hj | hj
      · exact h2 j hj
      · exact listMatchAt_false_of_gt hsub (by omega)
    · right
      refine ⟨k, h1, h3, fun j hj => ?_⟩
      rcases le_or_lt j (s.length - sub.length) with hb | hb
      · exact h4 j hb hj
      · exact listMatchAt_false_of_gt hsub (by omega)
  · rw [if_neg hl]
    left
    refine ⟨rfl, fun j => ?_⟩
    exact listMatchAt_false_of_gt hsub (by omega)

/-! Helper lemmas about the last_break fold. -/

theorem stepMax_left (a b : Int) : a ≤ stepMax a b := by
  rw [stepMax]
  split <;> omega

theorem stepMax_right (a b : Int) : b ≤ stepMax a b := by
  rw [stepMax]
  split <;> omega

theorem stepMax_cases (a b : Int) : stepMax a b = a ∨ stepMax a b = b := by
  rw [stepMax]
  split
  · right
    rfl
  · left
    rfl

theorem foldl_stepMax_init_le (r : List Char) (l : List (List Char)) (init : Int) :
    init ≤ l.foldl (fun lb m => stepMax lb (pyRfind r m)) init := by
  induction l generalizing init with
  | nil => exact le_refl _
  | cons a t ih =>
    exact le_trans (stepMax_left init (pyRfind r a)) (ih (stepMax init (pyRfind r a)))

theorem foldl_stepMax_mem_le (r : List Char) (l : List (List Char)) (init : Int)
    {m : List Char} (hm : m ∈ l) :
    pyRfind r m ≤ l.foldl (fun lb mm => stepMax lb (pyRfind r mm)) init := by
  induction l generalizing init with
  | nil => cases hm
  | cons a t ih =>
    rcases List.mem_cons.mp hm with h | h
    · subst h
      exact le_trans (stepMax_right init (pyRfind r m))
        (foldl_stepMax_init_le r t (stepMax init (pyRfind r m)))
    · exact ih _ h

theorem foldl_stepMax_achieved (r : List Char) (l : List (List Char)) (init : Int) :
    l.foldl (fun lb m => stepMax lb (pyRfind r m)) init = init ∨
    ∃ m ∈ l, l.foldl (fun lb mm => stepMax lb (pyRfind r mm)) init = pyRfind r m := by
  induction l generalizing init with
  | nil => exact Or.inl rfl
  | cons a t ih =>
    rcases ih (stepMax init (pyRfind r a)) with h | ⟨m, hm, h⟩
    · rcases stepMax_cases init (pyRfind r a) with h2 | h2
      · left
        simpa [h2] using h
      · right
        exact ⟨a, List.mem_cons_self a t, by simpa [h2] using h⟩
    · right
      exact ⟨m, List.mem_cons_of_mem a hm, h⟩

theorem sentMarkers_ne_nil : ∀ m ∈ sentMarkers, m ≠ ([] : List Char) := by
  decide

theorem markerAt_of_listMatchAt {r m : List Char} {j : Nat} (hm : m ∈ sentMarkers)
    (h : listMatchAt r m j = true) : markerAt r j = true := by
  rw [markerAt, List.any_eq_true]
  exact ⟨m, hm, h⟩

theorem le_lastBreak_of_markerAt {r : List Char} {j : Nat} (h : markerAt r j = true) :
    (j : Int) ≤ lastBreak r := by
  rw [markerAt, List.any_eq_true] at h
  obtain ⟨m, hm, hmt⟩ := h
  rcases pyRfind_cases r m (sentMarkers_ne_nil m hm) with ⟨_, hall⟩ | ⟨k, hk, _, hmax⟩
  · rw [hall j] at hmt
    cases hmt
  · have hjk : j ≤ k := by
      by_contra hc
      push_neg at hc
      rw [hmax j hc] at hmt
      cases hmt
    calc (j : Int) ≤ (k : Int) := by exact_mod_cast hjk
    _ = pyRfind r m := hk.symm
    _ ≤ lastBreak r := foldl_stepMax_mem_le r sentMarkers (-1) hm

theorem lastBreak_achieved (r : List Char) :
    lastBreak r = -1 ∨ ∃ k : Nat, lastBreak r = (k : Int) ∧ markerAt r k = true := by
  rcases foldl_stepMax_achieved r sentMarkers (-1) with h | ⟨m, hm, h⟩
  · exact Or.inl h
  · rcases pyRfind_cases r m (sentMarkers_ne_nil m hm) with ⟨h1, _⟩ | ⟨k, hk, hmt, _⟩
    · left
      rw [lastBreak, h, h1]
    · right
      exact ⟨k, by rw [lastBreak, h, hk], markerAt_of_listMatchAt hm hmt⟩

theorem markerAt_lt_length {r : List Char} {k : Nat} (h : markerAt r k = true) :
    k < r.length := by
  rw [markerAt, List.any_eq_true] at h
  obtain ⟨m, hm, hmt⟩ := h
  have hb := listMatchAt_bound (sentMarkers_ne_nil m hm) hmt
  have hpos : 0 < m.length := List.length_pos.mpr (sentMarkers_ne_nil m hm)
  omega

theorem lastBreak_eq_of_max {r : List Char} {q : Nat} (hq : markerAt r q = true)
    (hmax : ∀ j : Nat, j < r.length → q < j → markerAt r j = false) :
    lastBreak r = (q : Int) := by
  have hge : (q : Int) ≤ lastBreak r := le_lastBreak_of_markerAt hq
  rcases lastBreak_achieved r with h | ⟨k, hk, hkm⟩
  · rw [h] at hge
    omega
  · have hkq : k ≤ q := by
      by_contra hc
      push_neg at hc
      rw [hmax k (markerAt_lt_length hkm) hc] at hkm
      cases hkm
    rw [hk] at hge ⊢
    have : q ≤ k := by exact_mod_cast hge
    have : q = k := by omega
    subst this
    rfl

/-! Helper lemmas about the chunking loop. -/

theorem chunkLoop_eq_rangesLoop (cs ov : Nat) (text : List Char) :
    ∀ (fuel : Nat) (start : Int),
      chunkLoop cs ov text fuel start =
        (chunkRangesLoop cs ov text fuel start).map
          (List.map (fun r => pyStrip (pySlice text r.1 r.2))) := by
  intro fuel
  induction fuel with
  | zero => intro start; rfl
  | succ n ih =>
    intro start
    rw [chunkLoop, chunkRangesLoop]
    by_cases h : start < (text.length : Int)
    · rw [if_pos h, if_pos h, ih]
      cases chunkRangesLoop cs ov text n (chunkEnd cs text start - (ov : Int)) with
      | none => rfl
      | some rest => rfl
    · rw [if_neg h, if_neg h]
      rfl

theorem chunkRangesLoop_cover (cs ov : Nat) (text : List Char) :
    ∀ (fuel : Nat) (start : Int) (rs : List (Int × Int)),
      chunkRangesLoop cs ov text fuel start = some rs →
      ∀ p : Int, start ≤ p → p < (text.length : Int) →
        ∃ r ∈ rs, r.1 ≤ p ∧ p < r.2 := by
  intro fuel
  induction fuel with
  | zero =>
    intro start rs h
    cases h
  | succ n ih =>
    intro start rs h p hsp hpl
    rw [chunkRangesLoop] at h
    by_cases hc : start < (text.length : Int)
    · rw [if_pos hc] at h
      cases hrec : chunkRangesLoop cs ov text n (chunkEnd cs text start - (ov : Int)) with
      | none =>
        rw [hrec] at h
        cases h
      | some rest =>
        rw [hrec] at h
        simp only [Option.map_some', Option.some.injEq] at h
        subst h
        by_cases hpe : p < chunkEnd cs text start
        · exact ⟨(start, chunkEnd cs text start), List.mem_cons_self _ _, hsp, hpe⟩
        · push_neg at hpe
          have hle : chunkEnd cs text start - (ov : Int) ≤ p := by
            have : (0 : Int) ≤ (ov : Int) := Int.natCast_nonneg ov
            omega
          obtain ⟨r, hr, h1, h2⟩ := ih _ rest hrec p hle hpl
          exact ⟨r, List.mem_cons_of_mem _ hr, h1, h2⟩
    · rw [if_neg hc] at h
      push_neg at hc
      omega

theorem chunkRangesLoop_chain (cs ov : Nat) (text : List Char) :
    ∀ (fuel : Nat) (start : Int) (rs : List (Int × Int)),
      chunkRangesLoop cs ov text fuel start = some rs →
      List.Chain' (fun a b => b.1 = a.2 - (ov : Int)) rs ∧
      (∀ r, rs.head? = some r → r.1 = start) := by
  intro fuel
  induction fuel with
  | zero =>
    intro start rs h
    cases h
  | succ n ih =>
    intro start rs h
    rw [chunkRangesLoop] at h
    by_cases hc : start < (text.length : Int)
    · rw [if_pos hc] at h
      cases hrec : chunkRangesLoop cs ov text n (chunkEnd cs text start - (ov : Int)) with
      | none =>
        rw [hrec] at h
        cases h
      | some rest =>
        rw [hrec] at h
        simp only [Option.map_some', Option.some.injEq] at h
        subst h
        obtain ⟨ihchain, ihhead⟩ := ih _ rest hrec
        refine ⟨List.chain'_cons'.mpr ⟨?_, ihchain⟩, ?_⟩
        · intro b hb
          exact ihhead b hb
        · intro r hr
          simp only [List.head?_cons, Option.some.injEq] at hr
          subst hr
          rfl
    · rw [if_neg hc] at h
      simp only [Option.some.injEq] at h
      subst h
      exact ⟨List.chain'_nil, by intro r hr; cases hr⟩

theorem chunkEnd_advance {cs ov : Nat} (text : List Char) (h : ov + 200 ≤ cs) (start : Int) :
    start + (ov : Int) + 2 ≤ chunkEnd cs text start := by
  have hcast : (ov : Int) + 200 ≤ (cs : Int) := by exact_mod_cast h
  rw [chunkEnd]
  by_cases h1 : start + (cs : Int) < (text.length : Int)
  · rw [if_pos h1]
    by_cases h2 : lastBreak (chunkRegion cs text start) > 0
    · simp only [if_pos h2]
      have hb : start + (cs : Int) - 200 ≤ chunkBase cs start := le_max_right _ _
      omega
    · simp only [if_neg h2]
      omega
  · rw [if_neg h1]
    omega

theorem chunkLoop_isSome_of_fuel {cs ov : Nat} (text : List Char) (h : ov + 200 ≤ cs) :
    ∀ (fuel : Nat) (start : Int), (text.length : Int) ≤ start + 2 * fuel →
      (chunkLoop cs ov text (fuel + 1) start).isSome = true := by
  intro fuel
  induction fuel with
  | zero =>
    intro start hb
    rw [chunkLoop, if_neg (by omega)]
    rfl
  | succ n ih =>
    intro start hb
    rw [chunkLoop]
    by_cases hc : start < (text.length : Int)
    · rw [if_pos hc]
      have hadv := chunkEnd_advance text h start
      have hs := ih (chunkEnd cs text start - (ov : Int)) (by push_cast at hb ⊢; omega)
      cases hr : chunkLoop cs ov text (n + 1) (chunkEnd cs text start - (ov : Int)) with
      | none =>
        rw [hr] at hs
        cases hs
      | some rest => rfl
    · rw [if_neg hc]
      rfl

theorem chunkTerminates_of_margin {cs ov : Nat} (text : List Char) (h : ov + 200 ≤ cs) :
    ChunkTerminates cs ov text := by
  refine ⟨text.length + 1, chunkLoop_isSome_of_fuel text h text.length 0 (by omega)⟩

theorem chunkLoop_none_of_fixpoint {cs ov : Nat} {text : List Char}
    (hfix : chunkEnd cs text 0 - (ov : Int) = 0) (hlen : 0 < text.length) :
    ∀ fuel, chunkLoop cs ov text fuel 0 = none := by
  intro fuel
  induction fuel with
  | zero => rfl
  | succ n ih =>
    rw [chunkLoop, if_pos (by exact_mod_cast hlen)]
    rw [hfix, ih]
    rfl

theorem not_chunkTerminates_of_fixpoint {cs ov : Nat} {text : List Char}
    (hfix : chunkEnd cs text 0 - (ov : Int) = 0) (hlen : 0 < text.length) :
    ¬ ChunkTerminates cs ov text := by
  rintro ⟨fuel, hf⟩
  rw [chunkLoop_none_of_fixpoint hfix hlen fuel] at hf
  cases hf

/-! Helper lemmas about stripping and the reduce stage. -/

theorem pyStrip_eq_nil_iff (s : List Char) :
    pyStrip s = [] ↔ ∀ c ∈ s, isPySpace c = true := by
  constructor
  · intro h c hc
    rw [pyStrip, List.reverse_eq_nil_iff, List.dropWhile_eq_nil_iff] at h
    have h2 : ∀ x ∈ s.dropWhile isPySpace, isPySpace x = true := by
      intro x hx
      exact h x (List.mem_reverse.mpr hx)
    have hsplit : s.takeWhile isPySpace ++ s.dropWhile isPySpace = s :=
      List.takeWhile_append_dropWhile isPySpace s
    rw [← hsplit] at hc
    rcases List.mem_append.mp hc with hc1 | hc2
    · exact List.mem_takeWhile_imp hc1
    · exact h2 c hc2
  · intro h
    rw [pyStrip, List.reverse_eq_nil_iff, List.dropWhile_eq_nil_iff]
    intro x hx
    exact h x (List.dropWhile_subset isPySpace (List.mem_reverse.mp hx))

theorem pyStrip_ne_nil_of_nonspace {s : List Char} {c : Char} (hc : c ∈ s)
    (hcs : isPySpace c = false) : pyStrip s ≠ [] := by
  intro h
  have := (pyStrip_eq_nil_iff s).mp h c hc
  rw [hcs] at this
  cases this

theorem filterMap_truthy_eq_map (sumFn : List Char → Bool → Option (List Char))
    (l : List (List Char)) (h : ∀ c ∈ l, pyTruthy (sumFn c true) = true) :
    l.filterMap (fun c => if pyTruthy (sumFn c true) then sumFn c true else none) =
      l.map (fun c => (sumFn c true).getD []) := by
  induction l with
  | nil => rfl
  | cons a t ih =>
    have ha := h a (List.mem_cons_self a t)
    rw [List.filterMap_cons, List.map_cons]
    cases hr : sumFn a true with
    | none =>
      rw [hr] at ha
      cases ha
    | some v =>
      rw [hr] at ha
      simp only [hr, if_pos ha, Option.getD_some]
      rw [ih (fun c hc => h c (List.mem_cons_of_mem a hc))]

theorem filterMap_truthy_cons_falsy (sumFn : List Char → Bool → Option (List Char))
    {b : List Char} (hb : pyTruthy (sumFn b true) = false) (t : List (List Char)) :
    List.filterMap (fun c => if pyTruthy (sumFn c true) then sumFn c true else none) (b :: t) =
      List.filterMap (fun c => if pyTruthy (sumFn c true) then sumFn c true else none) t := by
  rw [List.filterMap_cons]
  rw [hb]
  rfl

/-! Claim theorems. -/

/-- C1: code-bug evidence. With two segments whose per-segment summarize calls
both fail (return None), the reduce stage of process_file still invokes
combine_summaries, with the empty list of partial summaries, and when the
generation service returns a non-empty string for that degenerate combine
prompt the document is not marked failed. The claim (with the spec) says the
document is marked failed and the combine function is never invoked. -/
theorem reduce_all_failed_still_calls_combine :
    reduce_stage [strL "a", strL "b"] (fun _ _ => none) (fun _ => some (strL "FAB")) =
      (some (strL "FAB"), some []) ∧
    documentFailed (some (strL "FAB")) = false :=
  ⟨rfl, rfl⟩

/-- C2: counterexample. Setting chunk_size = 100 and overlap = 100 (overlap
not below max_size) on a constructed summarizer succeeds and raises no
ConfigError (the code has no such check and no such error), while the
spec-level checked constructor initSpec rejects exactly this configuration;
the invalid configuration is instead discovered inside the split loop, which
never terminates on a 101-character input. -/
theorem configure_accepts_overlap_ge_max_size :
    configure (TranscriptionSummarizer.init (strL "gpt-oss:120b")
        (strL "http://localhost:11434")) 100 100 =
      { model_name := strL "gpt-oss:120b", ollama_url := strL "http://localhost:11434",
        chunk_size := 100, overlap := 100 } ∧
    initSpec 100 100 = .error .overlapNotLessThanMaxSize ∧
    ¬ ChunkTerminates 100 100 (List.replicate 101 'a') := by
  refine ⟨rfl, rfl, not_chunkTerminates_of_fixpoint ?_ (by decide)⟩
  decide

/-- C2 amended: construction never fails and performs no validation at all;
the constructor fixes overlap = 500 and chunk_size = 6000, so every
constructed summarizer satisfies overlap + 200 ≤ max_size, a margin for which
the split loop terminates on every input text. A configuration with overlap
at least max_size is never rejected at construction time (see the
counterexample); the code simply never produces one itself. -/
theorem init_hardcodes_terminating_config (m u text : List Char) :
    (TranscriptionSummarizer.init m u).overlap + 200 ≤
      (TranscriptionSummarizer.init m u).chunk_size ∧
    ChunkTerminates (TranscriptionSummarizer.init m u).chunk_size
      (TranscriptionSummarizer.init m u).overlap text :=
  ⟨show (500 : Nat) + 200 ≤ 6000 by decide,
   chunkTerminates_of_margin text (show (500 : Nat) + 200 ≤ 6000 by decide)⟩

/-- C4: counterexample. For the three-character input of a letter surrounded
by spaces (length at most max_size), chunk_text returns the input itself, not
the trimmed input: the single returned segment differs from the trimmed
text. -/
theorem chunk_text_single_segment_not_trimmed :
    chunk_text 6000 500 (strL " a ") 1 = some [strL " a "] ∧
    pyStrip (strL " a ") = strL "a" ∧
    strL " a " ≠ strL "a" :=
  ⟨rfl, by decide, by decide⟩

/-- C4 amended: for every text with length at most max_size, chunk_text
returns exactly one segment equal to the whole, untrimmed, input text. -/
theorem chunk_text_single_whole_text (cs ov : Nat) (text : List Char) (fuel : Nat)
    (h : text.length ≤ cs) : chunk_text cs ov text fuel = some [text] := by
  rw [chunk_text, if_pos h]

/-- C4 amended witness: the amended claim evaluated at the concrete input of
the counterexample. -/
theorem chunk_text_single_whole_text_witness :
    (strL " a ").length ≤ 6000 ∧ chunk_text 6000 500 (strL " a ") 1 = some [strL " a "] :=
  ⟨by decide, chunk_text_single_whole_text 6000 500 (strL " a ") 1 (by decide)⟩

/-- C6: counterexample. With chunk_size = 100 and overlap = 50 (overlap below
max_size) the loop cursor returns to 0 forever on a 110-character text whose
only sentence marker sits exactly where the truncated window ends
(end becomes 50 and the next start is 50 - 50 = 0): the split loop does not
terminate, although overlap < max_size. -/
theorem chunk_loop_diverges_with_overlap_lt_max :
    (50 : Nat) < 100 ∧
    ¬ ChunkTerminates 100 50 (List.replicate 49 'a' ++ '.' :: List.replicate 60 'a') := by
  refine ⟨by decide, not_chunkTerminates_of_fixpoint ?_ (by decide)⟩
  decide

/-- C6 amended: the split loop terminates on every input text whenever
overlap + 200 ≤ max_size: the 200-character boundary search can pull a window
end back to max(start, end-200) + 2 at worst, so with that margin the cursor
always advances. In particular the hardcoded configuration 6000/500
terminates. The claimed bound overlap < max_size alone is not sufficient (see
the counterexample). -/
theorem chunk_loop_terminates_of_margin (cs ov : Nat) (text : List Char)
    (h : ov + 200 ≤ cs) : ChunkTerminates cs ov text :=
  chunkTerminates_of_margin text h

/-- C6 amended witness: the hardcoded configuration on a concrete text. -/
theorem chunk_loop_terminates_of_margin_witness :
    500 + 200 ≤ 6000 ∧ ChunkTerminates 6000 500 (strL "hello") :=
  ⟨by decide, chunk_loop_terminates_of_margin 6000 500 (strL "hello") (by decide)⟩

/-- C7: counterexample. With the valid configuration chunk_size = 5 and
overlap = 1 and the nonempty input of seven spaces, chunk_text returns two
segments, both equal to the empty string: stripping a whitespace-only window
produces an empty segment. -/
theorem chunk_text_returns_empty_segments :
    (1 : Nat) < 5 ∧
    List.replicate 7 ' ' ≠ ([] : List Char) ∧
    chunk_text 5 1 (List.replicate 7 ' ') 3 = some [[], []] :=
  ⟨by decide, by decide, by decide⟩

/-- C7 amended: a returned segment can be empty, but only for a
whitespace-only window: when chunk_text returns segments, either the text was
short and the single segment is the whole text, or each segment is the
whitespace-trim of its window and every window containing a non-whitespace
character yields a nonempty segment. -/
theorem chunk_segments_empty_only_for_whitespace_windows
    (cs ov : Nat) (text : List Char) (fuel : Nat) (segs : List (List Char))
    (h : chunk_text cs ov text fuel = some segs) :
    (text.length ≤ cs ∧ segs = [text]) ∨
    (∃ rs, chunkRangesLoop cs ov text fuel 0 = some rs ∧
      segs = rs.map (fun r => pyStrip (pySlice text r.1 r.2)) ∧
      ∀ r ∈ rs, (∃ c ∈ pySlice text r.1 r.2, isPySpace c = false) →
        pyStrip (pySlice text r.1 r.2) ≠ []) := by
  rw [chunk_text] at h
  by_cases hl : text.length ≤ cs
  · rw [if_pos hl] at h
    simp only [Option.some.injEq] at h
    exact Or.inl ⟨hl, h.symm⟩
  · rw [if_neg hl] at h
    right
    rw [chunkLoop_eq_rangesLoop] at h
    cases hrs : chunkRangesLoop cs ov text fuel 0 with
    | none =>
      rw [hrs] at h
      cases h
    | some rs =>
      rw [hrs] at h
      simp only [Option.map_some', Option.some.injEq] at h
      refine ⟨rs, rfl, h.symm, ?_⟩
      rintro r - ⟨c, hc, hcs⟩
      exact pyStrip_ne_nil_of_nonspace hc hcs

/-- C7 amended witness: the amended claim evaluated on a concrete multi-window
input whose windows all contain non-whitespace characters. -/
theorem chunk_segments_empty_only_for_whitespace_windows_witness :
    ((strL "abcdefgh").length ≤ 5 ∧ [strL "abcde", strL "efgh"] = [strL "abcdefgh"]) ∨
    (∃ rs, chunkRangesLoop 5 1 (strL "abcdefgh") 9 0 = some rs ∧
      [strL "abcde", strL "efgh"] =
        rs.map (fun r => pyStrip (pySlice (strL "abcdefgh") r.1 r.2)) ∧
      ∀ r ∈ rs, (∃ c ∈ pySlice (strL "abcdefgh") r.1 r.2, isPySpace c = false) →
        pyStrip (pySlice (strL "abcdefgh") r.1 r.2) ≠ []) :=
  chunk_segments_empty_only_for_whitespace_windows 5 1 (strL "abcdefgh") 9
    [strL "abcde", strL "efgh"] (by decide)

/-- C5: for every text longer than max_size and valid overlap below max_size,
when the split loop returns, the returned segments of chunk_text are exactly
the whitespace-trims of the loop windows taken in order, each window starts at
its predecessor's end minus the overlap, and the windows cover every position
of the input text with no gaps. -/
theorem chunk_ranges_cover_text (cs ov : Nat) (text : List Char) (fuel : Nat)
    (rs : List (Int × Int))
    (hlen : cs < text.length) (_hov : ov < cs)
    (h : chunkRangesLoop cs ov text fuel 0 = some rs) :
    chunk_text cs ov text fuel =
      some (rs.map (fun r => pyStrip (pySlice text r.1 r.2))) ∧
    List.Chain' (fun a b => b.1 = a.2 - (ov : Int)) rs ∧
    ∀ p : Nat, p < text.length → ∃ r ∈ rs, r.1 ≤ (p : Int) ∧ (p : Int) < r.2 := by
  refine ⟨?_, (chunkRangesLoop_chain cs ov text fuel 0 rs h).1, ?_⟩
  · rw [chunk_text, if_neg (by omega), chunkLoop_eq_rangesLoop, h]
    rfl
  · intro p hp
    exact chunkRangesLoop_cover cs ov text fuel 0 rs h (p : Int)
      (Int.natCast_nonneg p) (by exact_mod_cast hp)

/-- C5 witness: the coverage theorem evaluated on a concrete eight-character
text with chunk_size 5 and overlap 1: two windows (0,5) and (4,9), segments
"abcde" and "efgh", and position 6 is covered by the second window. -/
theorem chunk_ranges_cover_text_witness :
    5 < (strL "abcdefgh").length ∧ (1 : Nat) < 5 ∧
    chunk_text 5 1 (strL "abcdefgh") 9 = some [strL "abcde", strL "efgh"] ∧
    (∃ r ∈ [((0 : Int), (5 : Int)), ((4 : Int), (9 : Int))],
      r.1 ≤ (6 : Int) ∧ (6 : Int) < r.2) := by
  have h := chunk_ranges_cover_text 5 1 (strL "abcdefgh") 9
    [((0 : Int), (5 : Int)), ((4 : Int), (9 : Int))] (by decide) (by decide) (by decide)
  refine ⟨by decide, by decide, ?_, ?_⟩
  · rw [h.1]
    rfl
  · have h6 := h.2.2 6 (by decide)
    exact_mod_cast h6

/-- C8: counterexample. A window of size 201 over a 202-character text whose
only marker is the period at absolute position 1, strictly after the window
start 0 and inside the trailing 200 characters of the window (the region
starts at max(0, 201-200) = 1, so the marker sits at region offset 0): the
claim demands truncation just after the marker (window end 2), but the code
leaves the window untouched at end 201, because its guard requires a strictly
positive offset inside the region, not a position after the window start. -/
theorem chunk_window_marker_after_start_not_truncated :
    listMatchAt ('a' :: '.' :: List.replicate 200 'a') ['.'] 1 = true ∧
    (0 : Int) < 1 ∧
    chunkBase 201 0 = 1 ∧
    markerAt (chunkRegion 201 ('a' :: '.' :: List.replicate 200 'a') 0) 0 = true ∧
    lastBreak (chunkRegion 201 ('a' :: '.' :: List.replicate 200 'a') 0) = 0 ∧
    chunkEnd 201 ('a' :: '.' :: List.replicate 200 'a') 0 = 201 ∧
    (201 : Int) ≠ 1 + 1 :=
  ⟨by decide, by decide, by decide, by decide, by decide, by decide, by decide⟩

/-- C8 amended: whenever a window does not reach the end of the text and the
rightmost sentence-boundary marker of the trailing 200-character region sits
at a strictly positive offset q inside that region (not merely after the
window start), the window is truncated to end at the region start plus q + 1,
that is, just after the first character of the marker. -/
theorem chunk_window_truncates_at_rightmost_marker
    (cs : Nat) (text : List Char) (start : Int) (q : Nat)
    (hwin : start + (cs : Int) < (text.length : Int))
    (hq : markerAt (chunkRegion cs text start) q = true)
    (hmax : ∀ j : Nat, j < (chunkRegion cs text start).length → q < j →
      markerAt (chunkRegion cs text start) j = false)
    (hpos : 0 < q) :
    chunkEnd cs text start = chunkBase cs start + q + 1 := by
  have hlb : lastBreak (chunkRegion cs text start) = (q : Int) :=
    lastBreak_eq_of_max hq hmax
  rw [chunkEnd]
  rw [if_pos hwin, hlb, if_pos (by exact_mod_cast hpos : (0 : Int) < (q : Int))]

/-- C8 amended witness: a ten-character window over a sixteen-character text
with its rightmost marker at region offset 3 is truncated to end 4. -/
theorem chunk_window_truncates_at_rightmost_marker_witness :
    (0 : Int) + ((10 : Nat) : Int) < ((strL "abc.efghijklmnop").length : Int) ∧
    markerAt (chunkRegion 10 (strL "abc.efghijklmnop") 0) 3 = true ∧
    (0 : Nat) < 3 ∧
    chunkEnd 10 (strL "abc.efghijklmnop") 0 = chunkBase 10 0 + 3 + 1 :=
  ⟨by decide, by decide, by decide,
   chunk_window_truncates_at_rightmost_marker 10 (strL "abc.efghijklmnop") 0 3
     (by decide) (by decide) (by decide) (by decide)⟩

/-- C9: counterexample. With two segments of which exactly one per-segment
call fails ("a" returns None, "b" succeeds with a non-empty partial summary),
the combine function does receive the single surviving summary; but when the
combine call itself fails, the final summary is None and the document IS
marked failed, contradicting the claim that the document does not fail. -/
theorem reduce_one_failure_document_can_fail :
    pyTruthy ((fun (c : List Char) (_ : Bool) =>
      if c == strL "a" then none else some (strL "sb")) (strL "a") true) = false ∧
    pyTruthy ((fun (c : List Char) (_ : Bool) =>
      if c == strL "a" then none else some (strL "sb")) (strL "b") true) = true ∧
    reduce_stage [strL "a", strL "b"]
      (fun c _ => if c == strL "a" then none else some (strL "sb"))
      (fun _ => none) = (none, some [strL "sb"]) ∧
    documentFailed none = true :=
  ⟨rfl, rfl, rfl, rfl⟩

/-- C9 amended: over N > 1 segments whose per-segment results decompose into
truthy results before and after exactly one falsy result, combine_summaries
is invoked with exactly the N - 1 surviving partial summaries in segment
order, the summary is the combine call on those survivors joined by the
separator, and the document does not fail provided that combine call itself
returns a truthy (non-None, non-empty) result; if the combine call fails the
document still fails, as the counterexample shows. -/
theorem reduce_one_failure_combines_survivors
    (sumFn : List Char → Bool → Option (List Char))
    (combFn : List Char → Option (List Char))
    (pre post : List (List Char)) (b : List Char)
    (hpre : ∀ c ∈ pre, pyTruthy (sumFn c true) = true)
    (hpost : ∀ c ∈ post, pyTruthy (sumFn c true) = true)
    (hb : pyTruthy (sumFn b true) = false)
    (hN : 1 < (pre ++ b :: post).length) :
    (reduce_stage (pre ++ b :: post) sumFn combFn).2 =
      some ((pre ++ post).map (fun c => (sumFn c true).getD [])) ∧
    ((pre ++ post).map (fun c => (sumFn c true).getD [])).length =
      (pre ++ b :: post).length - 1 ∧
    (reduce_stage (pre ++ b :: post) sumFn combFn).1 =
      combFn (sepJoin ((pre ++ post).map (fun c => (sumFn c true).getD []))) ∧
    (pyTruthy (combFn (sepJoin ((pre ++ post).map
        (fun c => (sumFn c true).getD [])))) = true →
      documentFailed (reduce_stage (pre ++ b :: post) sumFn combFn).1 = false) := by
  have hcond : ¬(((pre ++ b :: post).length == 1) = true) := by
    simp only [beq_iff_eq, List.length_append, List.length_cons]
    simp only [List.length_append, List.length_cons] at hN
    omega
  have hfm : (pre ++ b :: post).filterMap
      (fun c => if pyTruthy (sumFn c true) then sumFn c true else none) =
      (pre ++ post).map (fun c => (sumFn c true).getD []) := by
    rw [List.filterMap_append, filterMap_truthy_cons_falsy sumFn hb,
      filterMap_truthy_eq_map sumFn pre hpre, filterMap_truthy_eq_map sumFn post hpost,
      List.map_append]
  rw [reduce_stage, if_neg hcond, hfm]
  refine ⟨rfl, ?_, rfl, ?_⟩
  · simp only [List.length_map, List.length_append, List.length_cons]
    omega
  · intro hcomb
    rw [documentFailed, hcomb]
    rfl

/-- C9 amended witness: three segments with the middle one failing; the
combine call receives the two survivors and, since it returns a non-empty
string, the document is not marked failed. -/
theorem reduce_one_failure_combines_survivors_witness :
    (reduce_stage ([strL "pa"] ++ strL "b" :: [strL "pc"])
        (fun c _ => if c == strL "b" then none else some ('s' :: c))
        (fun s => some ('C' :: s))).2 = some [strL "spa", strL "spc"] ∧
    documentFailed (reduce_stage ([strL "pa"] ++ strL "b" :: [strL "pc"])
        (fun c _ => if c == strL "b" then none else some ('s' :: c))
        (fun s => some ('C' :: s))).1 = false := by
  have h := reduce_one_failure_combines_survivors
    (fun c _ => if c == strL "b" then none else some ('s' :: c))
    (fun s => some ('C' :: s))
    [strL "pa"] [strL "pc"] (strL "b")
    (by decide) (by decide) (by decide) (by decide)
  refine ⟨?_, h.2.2.2 (by decide)⟩
  rw [h.1]
  rfl

/-- C3: for every generation-service response on which json.loads raises
(the response is not parseable as JSON), organize_summary returns the
deterministic fallback record with the metadata title and date and the raw
summary, with metadata and summary attached, and raises no exception. -/
theorem organize_summary_fallback
    (jl : Option (List Char) → Except PyExc PyVal) (response : Option (List Char))
    (summary : List Char) (meta : Metadata) (e : PyExc)
    (h : jl response = .error e) :
    organize_summary jl response summary meta =
      .ok (.pydict [(strL "title", .pystr meta.title), (strL "date", .pystr meta.date),
        (strL "raw_summary", .pystr summary), (strL "metadata", metaToVal meta),
        (strL "summary", .pystr summary)]) := by
  rw [organize_summary, h]
  rfl

/-- C3 witness: a concrete unparseable response with a concrete metadata
record produces exactly the fallback record with metadata and summary
attached. -/
theorem organize_summary_fallback_witness :
    organize_summary (fun _ => .error .valueError) (some (strL "not json at all"))
      (strL "S") ⟨strL "f.txt", strL "2024-10-14", strL "T", 3, 17⟩ =
      .ok (.pydict [(strL "title", .pystr (strL "T")),
        (strL "date", .pystr (strL "2024-10-14")),
        (strL "raw_summary", .pystr (strL "S")),
        (strL "metadata", metaToVal ⟨strL "f.txt", strL "2024-10-14", strL "T", 3, 17⟩),
        (strL "summary", .pystr (strL "S"))]) :=
  organize_summary_fallback _ _ _ _ _ rfl

/-- C10: for every generation-service response whose text parses as valid
JSON but not as a JSON object (a list, string, number, boolean or null),
organize_summary raises a TypeError at the step that attaches metadata and
summary, returning neither a parsed record nor the fallback record. -/
theorem organize_summary_nondict_raises_typeError
    (jl : Option (List Char) → Except PyExc PyVal) (response : Option (List Char))
    (summary : List Char) (meta : Metadata) (v : PyVal)
    (h : jl response = .ok v) (hnd : v.isDict = false) :
    organize_summary jl response summary meta = .error .typeError := by
  rw [organize_summary, h]
  cases v with
  | pydict d => simp [PyVal.isDict] at hnd
  | pynone => rfl
  | pybool b => rfl
  | pyint n => rfl
  | pystr s => rfl
  | pylist l => rfl

/-- C10 witness: a response parsed as the empty JSON array makes
organize_summary raise a TypeError. -/
theorem organize_summary_nondict_raises_typeError_witness :
    organize_summary (fun _ => .ok (.pylist [])) (some (strL "[]")) (strL "S")
      ⟨strL "f.txt", strL "d", strL "T", 1, 2⟩ = .error .typeError :=
  organize_summary_nondict_raises_typeError _ _ _ _ _ rfl rfl

end Whisper
